import Mathlib

/-!
Verification of the fraction-editor directive
(src/extensions/objects/templates/fraction-editor.directive.ts) and of the
fraction parsing/formatting component it delegates to.

The directive's controller and its watch callback are embedded directly from
the TypeScript source.  The `FractionObjectFactory` value object
(fromRawInputString / fromDict / toString) is not part of the provided source
tree, so it is modelled from the specification (sections 3, 4.1 and 7 of the
spec): grammar with three forms (integer, simple fraction, mixed number), a
leading minus sign, trimming of outer whitespace, the error taxonomy
InvalidFormat / InvalidDenominator / NumberTooLarge, and the safe-integer
overflow bound 2^53 - 1.
-/

namespace Oppia

/-! ### Character classes

`isWs` models the character class of the regular expression escape backslash-s
(ASCII whitespace: space, tab, line feed, vertical tab, form feed, carriage
return).  `isDigitC` models the digit class 0-9. -/

def isWs (c : Char) : Bool :=
  decide (c.toNat = 32 ∨ c.toNat = 9 ∨ c.toNat = 10 ∨ c.toNat = 11 ∨
    c.toNat = 12 ∨ c.toNat = 13)

def isDigitC (c : Char) : Bool :=
  decide (48 ≤ c.toNat ∧ c.toNat ≤ 57)

/-- The decimal digit character for a value below ten. -/
def digitChar : Nat → Char
  | 0 => '0'
  | 1 => '1'
  | 2 => '2'
  | 3 => '3'
  | 4 => '4'
  | 5 => '5'
  | 6 => '6'
  | 7 => '7'
  | 8 => '8'
  | _ => '9'

/-- Numeric value of a digit character. -/
def digitVal (c : Char) : Nat := c.toNat - 48

/-- Value of a left-to-right decimal digit string. -/
def digitsVal (cs : List Char) : Nat :=
  cs.foldl (fun a c => a * 10 + digitVal c) 0

/-- Fuel-driven decimal rendering of a natural number (most significant digit
first).  The fuel argument is structural so that small concrete instances
evaluate inside the kernel. -/
def natCharsF : Nat → Nat → List Char
  | 0, _ => []
  | fuel + 1, n =>
    if n < 10 then [digitChar n]
    else natCharsF fuel (n / 10) ++ [digitChar (n % 10)]

/-- Decimal rendering of a natural number; `n + 1` units of fuel always
suffice because the digit count of `n` is at most `n + 1`. -/
def natChars (n : Nat) : List Char := natCharsF (n + 1) n

/-- Strip leading and trailing whitespace from a character list. -/
def trimList (cs : List Char) : List Char :=
  ((cs.dropWhile isWs).reverse.dropWhile isWs).reverse

/-! ### The Fraction value type

Modelled from the spec: section 3's data model.  The sign is carried solely in
`isNegative`; `wholeNumber`, `numerator` and `denominator` are non-negative
integers (hence `Nat`). -/

structure Fraction where
  isNegative : Bool
  wholeNumber : Nat
  numerator : Nat
  denominator : Nat
  deriving DecidableEq, Repr

/-- Prepend a minus sign when the flag is set. -/
def condSign (b : Bool) (cs : List Char) : List Char :=
  if b then '-' :: cs else cs

/-- Modelled from the spec: the canonical formatting operation
`toString(fraction)` of section 4's FractionValue component, which is missing
from the provided sources.  A zero numerator renders the whole number alone
(with no minus sign on a bare zero); a zero whole number with a non-zero
numerator renders `numerator/denominator`; otherwise the mixed form
`wholeNumber numerator/denominator` is rendered. -/
def fracChars (f : Fraction) : List Char :=
  if f.numerator = 0 then
    condSign (f.isNegative && !(f.wholeNumber == 0)) (natChars f.wholeNumber)
  else if f.wholeNumber = 0 then
    condSign f.isNegative (natChars f.numerator ++ '/' :: natChars f.denominator)
  else
    condSign f.isNegative
      (natChars f.wholeNumber ++
        ' ' :: (natChars f.numerator ++ '/' :: natChars f.denominator))

/-- String form of the canonical formatting operation. -/
def Fraction.toStr (f : Fraction) : String := String.mk (fracChars f)

/-! ### Parsing -/

/-- Modelled from the spec: the error taxonomy of section 7; all errors
originate from `parse`. -/
inductive FractionError where
  | invalidFormat
  | invalidDenominator
  | numberTooLarge
  deriving DecidableEq, Repr

/-- Modelled from the spec: each error carries a human-readable message
distinguishing the three cases; the messages themselves are surfaced verbatim
by the caller. -/
def FractionError.message : FractionError → String
  | .invalidFormat => "Please enter a valid fraction (e.g., 5/3 or 1 2/3)"
  | .invalidDenominator => "Please do not put 0 in the denominator"
  | .numberTooLarge => "None of the numbers in the fraction should be greater than 9007199254740991"

/-- Modelled from the spec: the safe-integer overflow bound for parsed
literals (2^53 - 1, the 53-bit-safe integer range named in section 4.1). -/
def MAX_VALUE : Nat := 9007199254740991

/-- Result of the structural (grammar) stage of parsing: a whole-number part
and an optional numerator/denominator pair. -/
structure RawParse where
  whole : Nat
  frac : Option (Nat × Nat)

/-- Split an optional single leading minus sign off a character list. -/
def splitSign (cs : List Char) : Bool × List Char :=
  if cs.head? = some '-' then (true, cs.tail) else (false, cs)

/-- Match the exact tail `"/" digits`, returning the denominator value. -/
def parseSlashDigits (cs : List Char) : Option Nat :=
  if cs.head? = some '/' ∧ ¬(cs.tail.takeWhile isDigitC).isEmpty ∧
      (cs.tail.dropWhile isDigitC).isEmpty then
    some (digitsVal (cs.tail.takeWhile isDigitC))
  else
    none

/-- Modelled from the spec: the structural stage of `parse` for the unsigned
body.  The three accepted forms are `digits`, `digits "/" digits` and
`digits spaces digits "/" digits`; the separator between the whole-number
part and the fraction is one or more ordinary space characters, and no
whitespace is allowed around the slash. -/
def parseUnsigned (cs : List Char) : Option RawParse :=
  if (cs.takeWhile isDigitC).isEmpty then none
  else if (cs.dropWhile isDigitC).isEmpty then
    some ⟨digitsVal (cs.takeWhile isDigitC), none⟩
  else if (cs.dropWhile isDigitC).head? = some ' ' then
    if ((cs.dropWhile isDigitC).tail.dropWhile (fun c => c = ' ')).takeWhile
        isDigitC |>.isEmpty then none
    else
      match parseSlashDigits
          (((cs.dropWhile isDigitC).tail.dropWhile (fun c => c = ' ')).dropWhile
            isDigitC) with
      | some den =>
        some ⟨digitsVal (cs.takeWhile isDigitC),
          some (digitsVal (((cs.dropWhile isDigitC).tail.dropWhile
            (fun c => c = ' ')).takeWhile isDigitC), den)⟩
      | none => none
  else
    match parseSlashDigits (cs.dropWhile isDigitC) with
    | some den => some ⟨0, some (digitsVal (cs.takeWhile isDigitC), den)⟩
    | none => none

/-- Modelled from the spec: the semantic validation stage of `parse`
(section 4.1): every parsed literal must stay within the safe range, and a
denominator literal of zero is rejected; an integer-only input gets the
default numerator 0 and denominator 1. -/
def semanticCheck (neg : Bool) (rp : RawParse) : Except FractionError Fraction :=
  match rp.frac with
  | none =>
    if MAX_VALUE < rp.whole then .error .numberTooLarge
    else .ok ⟨neg, rp.whole, 0, 1⟩
  | some (n, d) =>
    if MAX_VALUE < rp.whole ∨ MAX_VALUE < n ∨ MAX_VALUE < d then
      .error .numberTooLarge
    else if d = 0 then .error .invalidDenominator
    else .ok ⟨neg, rp.whole, n, d⟩

/-- Modelled from the spec: the `parse(raw string)` operation of the
FractionValue component, which is missing from the provided sources.  Outer
whitespace is trimmed, an optional single leading minus sign marks the value
negative, the remainder must match one of the three grammar forms, and the
semantic checks of section 4.1 are applied afterwards. -/
def fromRawInputStringE (s : String) : Except FractionError Fraction :=
  match parseUnsigned (splitSign (trimList s.data)).2 with
  | none => .error .invalidFormat
  | some rp => semanticCheck (splitSign (trimList s.data)).1 rp

/-- The thrown-exception view of `parse` seen by the directive: a failure is
an exception object whose `message` field the directive reads. -/
def fromRawInputString (s : String) : Except String Fraction :=
  (fromRawInputStringE s).mapError FractionError.message

/-! ### fromDict / fromStructured -/

/-- Modelled from the spec: the structured record accepted by
`fromStructured` (section 4.1), with every field optional. -/
structure FractionDict where
  isNegative : Option Bool
  wholeNumber : Option Nat
  numerator : Option Nat
  denominator : Option Nat
  deriving DecidableEq, Repr

/-- Modelled from the spec: `fromStructured(record)` (called `fromDict` by
the directive), filling the defaults false / 0 / 0 / 1 for missing fields and
performing no semantic validation. -/
def fromDict (d : FractionDict) : Fraction :=
  { isNegative := d.isNegative.getD false
    wholeNumber := d.wholeNumber.getD 0
    numerator := d.numerator.getD 0
    denominator := d.denominator.getD 1 }

/-! ### The directive (embedded from
src/extensions/objects/templates/fraction-editor.directive.ts) -/

/-- The mutable state owned by the directive controller: the bound value
`ctrl.value` and the local `errorMessage` string. -/
structure EditorState where
  value : Option Fraction
  errorMessage : String
  deriving DecidableEq, Repr

/-- The test `INTERMEDIATE_REGEX.test(newValue)` with
`INTERMEDIATE_REGEX = /^\s*-?\s*$/`: optional whitespace, an optional single
minus sign, optional whitespace. -/
def matchesIntermediate (s : String) : Bool :=
  if (s.data.dropWhile isWs).isEmpty then true
  else if (s.data.dropWhile isWs).head? = some '-' then
    ((s.data.dropWhile isWs).tail.dropWhile isWs).isEmpty
  else false

/-- Declarative reading of the pattern of `INTERMEDIATE_REGEX`: the character
sequence decomposes as whitespace, then an optional single minus sign, then
whitespace. -/
def IntermediateStr (s : String) : Prop :=
  ∃ w1 d w2 : List Char,
    (∀ c ∈ w1, isWs c = true) ∧ (∀ c ∈ w2, isWs c = true) ∧
    (d = [] ∨ d = ['-']) ∧ s.data = w1 ++ d ++ w2

/-- The `$watch` callback of the directive controller, instrumented with a
flag recording whether `fromRawInputString` was invoked.  Inside the `try`
block the callback skips parsing when the input matches the intermediate
regex, otherwise stores the parse result in `ctrl.value`; in either
non-throwing case it then clears `errorMessage`; the `catch` block stores the
thrown error's message. -/
def watchCallbackCalls (p : String → Except String Fraction)
    (st : EditorState) (s : String) : EditorState × Bool :=
  if matchesIntermediate s then ({ st with errorMessage := "" }, false)
  else
    match p s with
    | .ok f => ({ value := some f, errorMessage := "" }, true)
    | .error m => ({ st with errorMessage := m }, true)

/-- The `$watch` callback's effect on the controller state. -/
def watchCallback (p : String → Except String Fraction)
    (st : EditorState) (s : String) : EditorState :=
  (watchCallbackCalls p st s).1

/-- The body of the `try` block of the watch callback, with the possible
exception from `fromRawInputString` left uncaught. -/
def watchBody (p : String → Except String Fraction)
    (st : EditorState) (s : String) : Except String EditorState :=
  if matchesIntermediate s then .ok { st with errorMessage := "" }
  else
    match p s with
    | .ok f => .ok { value := some f, errorMessage := "" }
    | .error m => .error m

/-- The watch callback as try body plus catch handler: an exception raised by
the body is caught and its message is stored in `errorMessage`. -/
def watchCallbackE (p : String → Except String Fraction)
    (st : EditorState) (s : String) : Except String EditorState :=
  match watchBody p st s with
  | .ok st' => .ok st'
  | .error m => .ok { st with errorMessage := m }

/-- `$ctrl.getWarningText()`: returns the stored error message. -/
def getWarningText (st : EditorState) : String := st.errorMessage

/-- Observable outcome of running the controller's initialization code:
the initial label `$ctrl.localValue.label`, the initial error message and
whether `fromDict` was invoked. -/
structure InitState where
  label : String
  errorMessage : String
  fromDictInvoked : Bool
  deriving DecidableEq, Repr

/-- The controller initialization embedded from the directive source:
`errorMessage` starts empty and `fractionString` starts as "0"; when the
bound `ctrl.value` is not null it is replaced by
`FractionObjectFactory.fromDict(ctrl.value).toString()`. -/
def initController (v : Option FractionDict) : InitState :=
  match v with
  | none => { label := "0", errorMessage := "", fromDictInvoked := false }
  | some d =>
    { label := (fromDict d).toStr, errorMessage := "", fromDictInvoked := true }

/-! ### Character-class lemmas -/

theorem isWs_false_of_isDigitC {c : Char} (h : isDigitC c = true) :
    isWs c = false := by
  simp only [isDigitC, decide_eq_true_eq] at h
  simp only [isWs, decide_eq_false_iff_not]
  omega

theorem ne_of_isDigitC {c : Char} (h : isDigitC c = true) {c' : Char}
    (h' : c'.toNat < 48) : c ≠ c' := by
  intro he
  subst he
  simp only [isDigitC, decide_eq_true_eq] at h
  omega

theorem isDigitC_digitChar : ∀ d, d < 10 → isDigitC (digitChar d) = true := by
  decide

theorem digitVal_digitChar : ∀ d, d < 10 → digitVal (digitChar d) = d := by
  decide

/-! ### List-scanning lemmas -/

theorem mem_of_head? {α : Type} {l : List α} {a : α} (h : l.head? = some a) :
    a ∈ l := by
  cases l with
  | nil => simp at h
  | cons x t => simp at h; simp [h]

theorem head?_append_left {α : Type} {l l' : List α} (h : l ≠ []) :
    (l ++ l').head? = l.head? := by
  cases l with
  | nil => exact absurd rfl h
  | cons x t => simp

theorem takeWhile_all {α : Type} {p : α → Bool} {l : List α}
    (h : ∀ a ∈ l, p a = true) : l.takeWhile p = l := by
  induction l with
  | nil => rfl
  | cons x t ih =>
    rw [List.takeWhile_cons_of_pos (h x (by simp))]
    rw [ih (fun a ha => h a (by simp [ha]))]

theorem dropWhile_all {α : Type} {p : α → Bool} {l : List α}
    (h : ∀ a ∈ l, p a = true) : l.dropWhile p = [] :=
  List.dropWhile_eq_nil_iff.mpr h

theorem takeWhile_append_all {α : Type} {p : α → Bool} {l₁ l₂ : List α}
    (h : ∀ a ∈ l₁, p a = true) :
    (l₁ ++ l₂).takeWhile p = l₁ ++ l₂.takeWhile p := by
  induction l₁ with
  | nil => simp
  | cons x t ih =>
    rw [List.cons_append, List.takeWhile_cons_of_pos (h x (by simp))]
    rw [ih (fun a ha => h a (by simp [ha])), List.cons_append]

theorem dropWhile_append_all {α : Type} {p : α → Bool} {l₁ l₂ : List α}
    (h : ∀ a ∈ l₁, p a = true) :
    (l₁ ++ l₂).dropWhile p = l₂.dropWhile p := by
  induction l₁ with
  | nil => simp
  | cons x t ih =>
    rw [List.cons_append, List.dropWhile_cons_of_pos (h x (by simp))]
    rw [ih (fun a ha => h a (by simp [ha]))]

theorem takeWhile_nil_of_head {α : Type} {p : α → Bool} {l : List α}
    (h : ∀ a, l.head? = some a → p a = false) : l.takeWhile p = [] := by
  cases l with
  | nil => rfl
  | cons x t =>
    exact List.takeWhile_cons_of_neg (by simp [h x (by simp)])

theorem dropWhile_self_of_head {α : Type} {p : α → Bool} {l : List α}
    (h : ∀ a, l.head? = some a → p a = false) : l.dropWhile p = l := by
  cases l with
  | nil => rfl
  | cons x t =>
    exact List.dropWhile_cons_of_neg (by simp [h x (by simp)])

theorem span_take {ds rest : List Char} (hd : ∀ c ∈ ds, isDigitC c = true)
    (hr : ∀ c, rest.head? = some c → isDigitC c = false) :
    (ds ++ rest).takeWhile isDigitC = ds := by
  rw [takeWhile_append_all hd, takeWhile_nil_of_head hr, List.append_nil]

theorem span_drop {ds rest : List Char} (hd : ∀ c ∈ ds, isDigitC c = true)
    (hr : ∀ c, rest.head? = some c → isDigitC c = false) :
    (ds ++ rest).dropWhile isDigitC = rest := by
  rw [dropWhile_append_all hd, dropWhile_self_of_head hr]

theorem trimList_self {l : List Char}
    (h1 : ∀ c, l.head? = some c → isWs c = false)
    (h2 : ∀ c, l.reverse.head? = some c → isWs c = false) :
    trimList l = l := by
  unfold trimList
  rw [dropWhile_self_of_head h1, dropWhile_self_of_head h2,
    List.reverse_reverse]

/-! ### Decimal-rendering lemmas -/

theorem digitsVal_append_singleton (l : List Char) (c : Char) :
    digitsVal (l ++ [c]) = digitsVal l * 10 + digitVal c := by
  unfold digitsVal
  rw [List.foldl_append]
  rfl

theorem natCharsF_digits :
    ∀ fuel n, n < fuel → ∀ c ∈ natCharsF fuel n, isDigitC c = true := by
  intro fuel
  induction fuel with
  | zero => intro n h; omega
  | succ f ih =>
    intro n h c hc
    unfold natCharsF at hc
    by_cases h10 : n < 10
    · rw [if_pos h10] at hc
      simp only [List.mem_singleton] at hc
      subst hc
      exact isDigitC_digitChar n h10
    · rw [if_neg h10] at hc
      rcases List.mem_append.mp hc with hm | hm
      · have hdiv : n / 10 < n := Nat.div_lt_self (by omega) (by omega)
        exact ih (n / 10) (by omega) c hm
      · simp only [List.mem_singleton] at hm
        subst hm
        exact isDigitC_digitChar (n % 10) (Nat.mod_lt n (by omega))

theorem natCharsF_val :
    ∀ fuel n, n < fuel → digitsVal (natCharsF fuel n) = n := by
  intro fuel
  induction fuel with
  | zero => intro n h; omega
  | succ f ih =>
    intro n h
    unfold natCharsF
    by_cases h10 : n < 10
    · rw [if_pos h10]
      show digitsVal ([] ++ [digitChar n]) = n
      rw [digitsVal_append_singleton, digitVal_digitChar n h10]
      simp only [digitsVal, List.foldl_nil]
      omega
    · rw [if_neg h10]
      have hdiv : n / 10 < n := Nat.div_lt_self (by omega) (by omega)
      rw [digitsVal_append_singleton, ih (n / 10) (by omega),
        digitVal_digitChar (n % 10) (Nat.mod_lt n (by omega))]
      omega

theorem natCharsF_ne_nil :
    ∀ fuel n, n < fuel → natCharsF fuel n ≠ [] := by
  intro fuel
  induction fuel with
  | zero => intro n h; omega
  | succ f ih =>
    intro n h
    unfold natCharsF
    by_cases h10 : n < 10
    · simp [h10]
    · simp [h10]

theorem natChars_digits (n : Nat) : ∀ c ∈ natChars n, isDigitC c = true :=
  natCharsF_digits (n + 1) n (by omega)

theorem natChars_val (n : Nat) : digitsVal (natChars n) = n :=
  natCharsF_val (n + 1) n (by omega)

theorem natChars_ne_nil (n : Nat) : natChars n ≠ [] :=
  natCharsF_ne_nil (n + 1) n (by omega)

theorem natChars_head_digit (n : Nat) {rest : List Char} :
    ∀ c, (natChars n ++ rest).head? = some c → isDigitC c = true := by
  intro c hc
  rw [head?_append_left (natChars_ne_nil n)] at hc
  exact natChars_digits n c (mem_of_head? hc)

theorem rev_head_digit (pre : List Char) (b : Nat) :
    ∀ c, ((pre ++ natChars b).reverse).head? = some c → isDigitC c = true := by
  intro c hc
  rw [List.reverse_append] at hc
  rw [head?_append_left (by simp [natChars_ne_nil b])] at hc
  exact natChars_digits b c (List.mem_reverse.mp (mem_of_head? hc))

/-! ### Evaluation lemmas for the structural parse stage -/

theorem parseSlashDigits_exact {ds : List Char} (h1 : ds ≠ [])
    (h2 : ∀ c ∈ ds, isDigitC c = true) :
    parseSlashDigits ('/' :: ds) = some (digitsVal ds) := by
  unfold parseSlashDigits
  simp only [List.head?_cons, List.tail_cons]
  rw [takeWhile_all h2, dropWhile_all h2]
  simp [h1]

theorem parseUnsigned_int {ds : List Char} (h1 : ds ≠ [])
    (h2 : ∀ c ∈ ds, isDigitC c = true) :
    parseUnsigned ds = some ⟨digitsVal ds, none⟩ := by
  unfold parseUnsigned
  rw [takeWhile_all h2, dropWhile_all h2]
  simp [h1]

theorem parseUnsigned_simple {nds dds : List Char} (hn1 : nds ≠ [])
    (hn2 : ∀ c ∈ nds, isDigitC c = true) (hd1 : dds ≠ [])
    (hd2 : ∀ c ∈ dds, isDigitC c = true) :
    parseUnsigned (nds ++ '/' :: dds) =
      some ⟨0, some (digitsVal nds, digitsVal dds)⟩ := by
  have hslash : ∀ c : Char, ('/' :: dds).head? = some c → isDigitC c = false := by
    intro c hc
    simp only [List.head?_cons, Option.some.injEq] at hc
    subst hc
    decide
  unfold parseUnsigned
  rw [span_take hn2 hslash, span_drop hn2 hslash]
  rw [parseSlashDigits_exact hd1 hd2]
  simp [hn1]

theorem parseUnsigned_mixed {wds nds dds : List Char} (hw1 : wds ≠ [])
    (hw2 : ∀ c ∈ wds, isDigitC c = true) (hn1 : nds ≠ [])
    (hn2 : ∀ c ∈ nds, isDigitC c = true) (hd1 : dds ≠ [])
    (hd2 : ∀ c ∈ dds, isDigitC c = true) :
    parseUnsigned (wds ++ ' ' :: (nds ++ '/' :: dds)) =
      some ⟨digitsVal wds, some (digitsVal nds, digitsVal dds)⟩ := by
  have hsp : ∀ c : Char, (' ' :: (nds ++ '/' :: dds)).head? = some c →
      isDigitC c = false := by
    intro c hc
    simp only [List.head?_cons, Option.some.injEq] at hc
    subst hc
    decide
  have hslash : ∀ c : Char, ('/' :: dds).head? = some c → isDigitC c = false := by
    intro c hc
    simp only [List.head?_cons, Option.some.injEq] at hc
    subst hc
    decide
  have hnospace : (nds ++ '/' :: dds).dropWhile (fun c => c = ' ') =
      nds ++ '/' :: dds := by
    apply dropWhile_self_of_head
    intro c hc
    rw [head?_append_left hn1] at hc
    have hdig := hn2 c (mem_of_head? hc)
    have : c ≠ ' ' := ne_of_isDigitC hdig (by decide)
    simp [this]
  unfold parseUnsigned
  rw [span_take hw2 hsp, span_drop hw2 hsp]
  simp only [List.head?_cons, List.tail_cons]
  rw [hnospace]
  rw [span_take hn2 hslash, span_drop hn2 hslash]
  rw [parseSlashDigits_exact hd1 hd2]
  simp [hw1, hn1]

/-! ### Evaluation lemmas for the full parse on canonical strings -/

theorem head?_prop {l : List Char} {c0 : Char} {t0 : List Char}
    (hb : l = c0 :: t0) {P : Char → Prop} (h0 : P c0) :
    ∀ c, l.head? = some c → P c := by
  intro c hc
  rw [hb] at hc
  simp only [List.head?_cons, Option.some.injEq] at hc
  subst hc
  exact h0

theorem fromRawE_body {neg : Bool} {body : List Char} (hne : body ≠ [])
    (hh : ∀ c, body.head? = some c → isDigitC c = true)
    (hl : ∀ c, body.reverse.head? = some c → isDigitC c = true) :
    fromRawInputStringE (String.mk (condSign neg body)) =
      match parseUnsigned body with
      | none => .error .invalidFormat
      | some rp => semanticCheck neg rp := by
  obtain ⟨c0, t0, hb⟩ : ∃ c t, body = c :: t := by
    cases body with
    | nil => exact absurd rfl hne
    | cons x t => exact ⟨x, t, rfl⟩
  have hc0 : isDigitC c0 = true := by
    apply hh
    rw [hb]
    rfl
  obtain ⟨c1, t1, hr⟩ : ∃ c t, body.reverse = c :: t := by
    cases hbr : body.reverse with
    | nil =>
      rw [List.reverse_eq_nil_iff] at hbr
      exact absurd hbr hne
    | cons x t => exact ⟨x, t, rfl⟩
  have hc1 : isDigitC c1 = true := by
    apply hl
    rw [hr]
    rfl
  have hwsc0 : isWs c0 = false := isWs_false_of_isDigitC hc0
  have hwsc1 : isWs c1 = false := isWs_false_of_isDigitC hc1
  cases neg with
  | false =>
    have hcond : condSign false body = body := by simp [condSign]
    have htrim : trimList body = body :=
      trimList_self (head?_prop hb hwsc0) (head?_prop hr hwsc1)
    have hsign : splitSign body = (false, body) := by
      unfold splitSign
      rw [hb]
      simp only [List.head?_cons, Option.some.injEq]
      rw [if_neg (ne_of_isDigitC hc0 (by decide))]
    unfold fromRawInputStringE
    rw [hcond]
    have hdata : (String.mk body).data = body := rfl
    rw [hdata, htrim, hsign]
  | true =>
    have hcond : condSign true body = '-' :: body := by simp [condSign]
    have hrev2 : ('-' :: body).reverse = c1 :: (t1 ++ ['-']) := by
      rw [List.reverse_cons, hr]
      rfl
    have htrim : trimList ('-' :: body) = '-' :: body :=
      trimList_self (head?_prop rfl (by decide)) (head?_prop hrev2 hwsc1)
    have hsign : splitSign ('-' :: body) = (true, body) := by
      simp [splitSign]
    unfold fromRawInputStringE
    rw [hcond]
    have hdata : (String.mk ('-' :: body)).data = '-' :: body := rfl
    rw [hdata, htrim, hsign]

theorem fromRawE_toStr_simple (neg : Bool) (n d : Nat) (hn : n ≠ 0) :
    fromRawInputStringE (Fraction.toStr ⟨neg, 0, n, d⟩) =
      semanticCheck neg ⟨0, some (n, d)⟩ := by
  have hbody : fracChars ⟨neg, 0, n, d⟩ =
      condSign neg (natChars n ++ '/' :: natChars d) := by
    simp [fracChars, hn]
  rw [Fraction.toStr, hbody]
  rw [fromRawE_body (by simp [natChars_ne_nil n]) (natChars_head_digit n)
    (by
      have hassoc : natChars n ++ '/' :: natChars d =
          (natChars n ++ ['/']) ++ natChars d := by simp
      rw [hassoc]
      exact rev_head_digit (natChars n ++ ['/']) d)]
  rw [parseUnsigned_simple (natChars_ne_nil n) (natChars_digits n)
    (natChars_ne_nil d) (natChars_digits d)]
  rw [natChars_val n, natChars_val d]

theorem fromRawE_toStr_mixed (neg : Bool) (w n d : Nat) (hw : w ≠ 0)
    (hn : n ≠ 0) :
    fromRawInputStringE (Fraction.toStr ⟨neg, w, n, d⟩) =
      semanticCheck neg ⟨w, some (n, d)⟩ := by
  have hbody : fracChars ⟨neg, w, n, d⟩ =
      condSign neg
        (natChars w ++ ' ' :: (natChars n ++ '/' :: natChars d)) := by
    simp [fracChars, hn, hw]
  rw [Fraction.toStr, hbody]
  rw [fromRawE_body (by simp [natChars_ne_nil w]) (natChars_head_digit w)
    (by
      have hassoc : natChars w ++ ' ' :: (natChars n ++ '/' :: natChars d) =
          (natChars w ++ ' ' :: natChars n ++ ['/']) ++ natChars d := by simp
      rw [hassoc]
      exact rev_head_digit (natChars w ++ ' ' :: natChars n ++ ['/']) d)]
  rw [parseUnsigned_mixed (natChars_ne_nil w) (natChars_digits w)
    (natChars_ne_nil n) (natChars_digits n) (natChars_ne_nil d)
    (natChars_digits d)]
  rw [natChars_val w, natChars_val n, natChars_val d]

/-! ### The intermediate-input regular expression -/

theorem matchesIntermediate_iff (s : String) :
    matchesIntermediate s = true ↔ IntermediateStr s := by
  constructor
  · intro h
    unfold matchesIntermediate at h
    by_cases h1 : (s.data.dropWhile isWs).isEmpty
    · refine ⟨s.data, [], [], ?_, by simp, Or.inl rfl, by simp⟩
      intro c hc
      have hsplit := List.takeWhile_append_dropWhile isWs s.data
      rw [List.isEmpty_iff] at h1
      rw [h1, List.append_nil] at hsplit
      rw [← hsplit] at hc
      exact List.mem_takeWhile_imp hc
    · rw [if_neg h1] at h
      by_cases h2 : (s.data.dropWhile isWs).head? = some '-'
      · rw [if_pos h2] at h
        obtain ⟨t, ht⟩ : ∃ t, s.data.dropWhile isWs = '-' :: t := by
          cases hd : s.data.dropWhile isWs with
          | nil => rw [hd] at h1; exact absurd rfl h1
          | cons x u =>
            rw [hd] at h2
            simp only [List.head?_cons, Option.some.injEq] at h2
            subst h2
            exact ⟨u, rfl⟩
        refine ⟨s.data.takeWhile isWs, ['-'], t, ?_, ?_, Or.inr rfl, ?_⟩
        · intro c hc
          exact List.mem_takeWhile_imp hc
        · intro c hc
          rw [ht, List.tail_cons] at h
          rw [List.isEmpty_iff] at h
          have := List.dropWhile_eq_nil_iff.mp h
          exact this c hc
        · have hsplit := List.takeWhile_append_dropWhile isWs s.data
          rw [ht] at hsplit
          rw [List.append_assoc, List.singleton_append]
          exact hsplit.symm
      · rw [if_neg h2] at h
        exact absurd h (by simp)
  · rintro ⟨w1, d, w2, hw1, hw2, hd, heq⟩
    unfold matchesIntermediate
    rcases hd with hd | hd
    · subst hd
      rw [heq]
      have : ((w1 ++ [] ++ w2).dropWhile isWs) = [] := by
        rw [List.append_nil]
        rw [dropWhile_append_all hw1]
        exact dropWhile_all hw2
      rw [this]
      rfl
    · subst hd
      rw [heq]
      have hdash : isWs '-' = false := by decide
      have hdrop : ((w1 ++ ['-'] ++ w2).dropWhile isWs) = '-' :: w2 := by
        rw [List.append_assoc]
        rw [dropWhile_append_all hw1]
        show List.dropWhile isWs ('-' :: w2) = '-' :: w2
        exact List.dropWhile_cons_of_neg (by simp [hdash])
      rw [hdrop]
      simp [dropWhile_all hw2]

/-! ### Watch-callback shape lemmas -/

theorem watchCallbackCalls_snd (p : String → Except String Fraction)
    (st : EditorState) (s : String) :
    (watchCallbackCalls p st s).2 = !matchesIntermediate s := by
  unfold watchCallbackCalls
  by_cases h : matchesIntermediate s
  · rw [if_pos h, h]
    rfl
  · rw [if_neg h]
    rw [Bool.not_eq_true] at h
    rw [h]
    cases p s with
    | ok f => rfl
    | error m => rfl

theorem watchCallback_error (p : String → Except String Fraction)
    (st : EditorState) (s : String) (m : String)
    (h1 : matchesIntermediate s = false) (h2 : p s = .error m) :
    watchCallback p st s = { st with errorMessage := m } := by
  unfold watchCallback watchCallbackCalls
  rw [if_neg (by simp [h1]), h2]

theorem watchCallback_ok (p : String → Except String Fraction)
    (st : EditorState) (s : String) (f : Fraction)
    (h1 : matchesIntermediate s = false) (h2 : p s = .ok f) :
    watchCallback p st s = { value := some f, errorMessage := "" } := by
  unfold watchCallback watchCallbackCalls
  rw [if_neg (by simp [h1]), h2]

/-! ### Parse-result invariants -/

theorem fromRawE_den_pos (s : String) (f : Fraction)
    (h : fromRawInputStringE s = .ok f) : 0 < f.denominator := by
  unfold fromRawInputStringE semanticCheck at h
  split at h
  · exact absurd h (by simp)
  · split at h
    · split at h
      · exact absurd h (by simp)
      · simp only [Except.ok.injEq] at h
        subst h
        exact Nat.one_pos
    · split at h
      · exact absurd h (by simp)
      · split at h
        · exact absurd h (by simp)
        · simp only [Except.ok.injEq] at h
          subst h
          dsimp only
          omega

theorem fromRaw_ok_of_E (s : String) (f : Fraction)
    (h : fromRawInputString s = .ok f) : fromRawInputStringE s = .ok f := by
  unfold fromRawInputString at h
  cases he : fromRawInputStringE s with
  | ok g => rw [he] at h; simp only [Except.mapError, Except.ok.injEq] at h; rw [h]
  | error e => rw [he] at h; exact absurd h (by simp [Except.mapError])

/-! ### Claim theorems -/

/-- Claim C1, counterexample: running the watch callback on the intermediate
input "-" over a state holding a prior non-empty error message does not leave
the stored error message unchanged — the message is cleared, so the claim as
stated is false. -/
theorem claim_C1_counterexample :
    (watchCallback fromRawInputString
      { value := none, errorMessage := "previous error" } "-").errorMessage ≠
      "previous error" := by
  decide

/-- Claim C1, amended: for every input string matching the intermediate
pattern, the watch callback neither invokes parse nor produces an error, and
it leaves the stored value unchanged, but it does not preserve a prior error
message: it always resets the stored error message to the empty string. -/
theorem claim_C1_amended_thm (p : String → Except String Fraction)
    (st : EditorState) (s : String) (h : matchesIntermediate s = true) :
    watchCallbackCalls p st s = ({ st with errorMessage := "" }, false) := by
  unfold watchCallbackCalls
  rw [if_pos h]

/-- Claim C1, witness: the amended theorem at the concrete intermediate input
"-" over a state holding a prior error message. -/
theorem claim_C1_witness :
    watchCallbackCalls fromRawInputString
      { value := none, errorMessage := "previous error" } "-" =
      ({ value := none, errorMessage := "" }, false) :=
  claim_C1_amended_thm fromRawInputString
    { value := none, errorMessage := "previous error" } "-" (by decide)

/-- Claim C2: the watch callback invokes fromRawInputString on the input
string exactly when the string does not match the intermediate pattern
(optional whitespace, optional single minus sign, optional whitespace). -/
theorem claim_C2_thm (p : String → Except String Fraction)
    (st : EditorState) (s : String) :
    (watchCallbackCalls p st s).2 = true ↔ ¬ IntermediateStr s := by
  rw [watchCallbackCalls_snd]
  constructor
  · intro hb hI
    rw [(matchesIntermediate_iff s).mpr hI] at hb
    simp at hb
  · intro hI
    cases hm : matchesIntermediate s with
    | false => rfl
    | true => exact absurd ((matchesIntermediate_iff s).mp hm) hI

/-- Claim C3: when the parse of a non-intermediate input throws, the watch
callback leaves ctrl.value unchanged and stores the thrown error's message. -/
theorem claim_C3_thm (p : String → Except String Fraction)
    (st : EditorState) (s : String) (m : String)
    (h1 : matchesIntermediate s = false) (h2 : p s = .error m) :
    (watchCallback p st s).value = st.value ∧
    (watchCallback p st s).errorMessage = m := by
  rw [watchCallback_error p st s m h1 h2]
  exact ⟨rfl, rfl⟩

/-- Claim C3, witness: parsing "abc" fails, the previously parsed value 1/2 is
retained and the invalid-format message is stored. -/
theorem claim_C3_witness :
    (watchCallback fromRawInputString
      { value := some ⟨false, 0, 1, 2⟩, errorMessage := "" } "abc").value =
      some (⟨false, 0, 1, 2⟩ : Fraction) ∧
    (watchCallback fromRawInputString
      { value := some ⟨false, 0, 1, 2⟩, errorMessage := "" } "abc").errorMessage =
      "Please enter a valid fraction (e.g., 5/3 or 1 2/3)" :=
  claim_C3_thm fromRawInputString
    { value := some ⟨false, 0, 1, 2⟩, errorMessage := "" } "abc"
    "Please enter a valid fraction (e.g., 5/3 or 1 2/3)" (by decide) rfl

/-- Claim C4: when the parse of a non-intermediate input succeeds, the watch
callback stores the newly parsed fraction in ctrl.value and resets the error
message to the empty string. -/
theorem claim_C4_thm (p : String → Except String Fraction)
    (st : EditorState) (s : String) (f : Fraction)
    (h1 : matchesIntermediate s = false) (h2 : p s = .ok f) :
    watchCallback p st s = { value := some f, errorMessage := "" } :=
  watchCallback_ok p st s f h1 h2

/-- Claim C4, witness: parsing "5/2" succeeds and supersedes the prior state,
clearing the prior error message. -/
theorem claim_C4_witness :
    watchCallback fromRawInputString
      { value := none, errorMessage := "old error" } "5/2" =
      { value := some ⟨false, 0, 5, 2⟩, errorMessage := "" } :=
  claim_C4_thm fromRawInputString
    { value := none, errorMessage := "old error" } "5/2"
    ⟨false, 0, 5, 2⟩ (by decide) rfl

/-- Claim C5: after the watch callback processes a non-intermediate input
whose parse throws, getWarningText returns exactly the thrown error's message
string. -/
theorem claim_C5_thm (p : String → Except String Fraction)
    (st : EditorState) (s : String) (m : String)
    (h1 : matchesIntermediate s = false) (h2 : p s = .error m) :
    getWarningText (watchCallback p st s) = m := by
  rw [watchCallback_error p st s m h1 h2]
  rfl

/-- Claim C5, witness: after processing "1/0" the warning text is exactly the
invalid-denominator message. -/
theorem claim_C5_witness :
    getWarningText (watchCallback fromRawInputString
      { value := none, errorMessage := "" } "1/0") =
      "Please do not put 0 in the denominator" :=
  claim_C5_thm fromRawInputString
    { value := none, errorMessage := "" } "1/0"
    "Please do not put 0 in the denominator" (by decide) rfl

/-- Claim C6, counterexample: the round trip fails for a structurally valid
fraction whose numerator exceeds the safe-integer bound: formatting then
parsing (MAX_VALUE + 1)/1 yields a NumberTooLarge error, not the fraction
back. -/
theorem claim_C6_counterexample :
    fromRawInputStringE (Fraction.toStr ⟨false, 0, MAX_VALUE + 1, 1⟩) ≠
      .ok ⟨false, 0, MAX_VALUE + 1, 1⟩ := by
  rw [fromRawE_toStr_simple false (MAX_VALUE + 1) 1 (by omega)]
  unfold semanticCheck
  dsimp only
  rw [if_pos (by omega)]
  simp

/-- Claim C6, amended: for every valid structured fraction with a non-zero
numerator, a positive denominator and every field within the safe-integer
bound MAX_VALUE, parsing the canonical formatting returns exactly the same
fraction field by field. -/
theorem claim_C6_roundtrip (f : Fraction) (hn : f.numerator ≠ 0)
    (hd : 0 < f.denominator) (h1 : f.wholeNumber ≤ MAX_VALUE)
    (h2 : f.numerator ≤ MAX_VALUE) (h3 : f.denominator ≤ MAX_VALUE) :
    fromRawInputStringE f.toStr = .ok f := by
  obtain ⟨neg, w, n, d⟩ := f
  dsimp only at hn hd h1 h2 h3
  by_cases hw : w = 0
  · subst hw
    rw [fromRawE_toStr_simple neg n d hn]
    unfold semanticCheck
    dsimp only
    rw [if_neg (by omega), if_neg (by omega)]
  · rw [fromRawE_toStr_mixed neg w n d hw hn]
    unfold semanticCheck
    dsimp only
    rw [if_neg (by omega), if_neg (by omega)]

/-- Claim C6, witness: the amended round trip at the concrete fraction
-3 1/2. -/
theorem claim_C6_witness :
    fromRawInputStringE (Fraction.toStr ⟨true, 3, 1, 2⟩) =
      .ok ⟨true, 3, 1, 2⟩ :=
  claim_C6_roundtrip ⟨true, 3, 1, 2⟩ (by decide) (by decide) (by decide)
    (by decide) (by decide)

/-- Claim C7: parsing the structurally well-formed string "1/0" fails with
the InvalidDenominator error — neither InvalidFormat nor a success. -/
theorem claim_C7_thm :
    fromRawInputStringE "1/0" = .error .invalidDenominator := rfl

/-- Claim C8, counterexample: fromDict (the structured constructor) performs
no validation, so a record carrying an explicit zero denominator constructs a
Fraction whose denominator is not strictly positive. -/
theorem claim_C8_counterexample :
    ¬ (0 < (fromDict ⟨none, none, none, some 0⟩).denominator) := by
  decide

/-- Claim C8, amended: every Fraction produced by a successful parse has a
strictly positive denominator, and consequently the watch callback only ever
writes fractions with a strictly positive denominator into ctrl.value; the
invariant does not extend to fromDict, which trusts its input. -/
theorem claim_C8_amended_thm :
    (∀ (s : String) (f : Fraction),
      fromRawInputStringE s = .ok f → 0 < f.denominator) ∧
    (∀ (st : EditorState) (s : String),
      (watchCallback fromRawInputString st s).value = st.value ∨
      ∃ f, (watchCallback fromRawInputString st s).value = some f ∧
        0 < f.denominator) := by
  constructor
  · exact fromRawE_den_pos
  · intro st s
    unfold watchCallback watchCallbackCalls
    by_cases hm : matchesIntermediate s
    · rw [if_pos hm]
      left
      rfl
    · rw [if_neg hm]
      cases hp : fromRawInputString s with
      | ok f =>
        right
        exact ⟨f, rfl, fromRawE_den_pos s f (fromRaw_ok_of_E s f hp)⟩
      | error m =>
        left
        rfl

/-- Claim C8, witness: the parse-invariant part applied at the concrete input
"1/2". -/
theorem claim_C8_witness :
    0 < (Fraction.mk false 0 1 2).denominator :=
  claim_C8_amended_thm.1 "1/2" ⟨false, 0, 1, 2⟩ rfl

/-- Claim C9: the watch callback is total with respect to exceptions: viewed
as a try body plus catch handler, it always returns normally (producing
exactly the total callback's state), and whatever error the body raises is
converted into the stored message string. -/
theorem claim_C9_thm (p : String → Except String Fraction)
    (st : EditorState) (s : String) :
    watchCallbackE p st s = .ok (watchCallback p st s) ∧
    ∀ m, watchBody p st s = .error m →
      watchCallbackE p st s = .ok { st with errorMessage := m } := by
  constructor
  · by_cases hm : matchesIntermediate s
    · simp [watchCallbackE, watchBody, watchCallback, watchCallbackCalls, hm]
    · cases hp : p s with
      | ok f =>
        simp [watchCallbackE, watchBody, watchCallback, watchCallbackCalls,
          hm, hp]
      | error m =>
        simp [watchCallbackE, watchBody, watchCallback, watchCallbackCalls,
          hm, hp]
  · intro m hbody
    unfold watchCallbackE
    rw [hbody]

/-- Claim C9, witness: the exception thrown while parsing "abc" is caught and
converted into the stored invalid-format message. -/
theorem claim_C9_witness :
    watchCallbackE fromRawInputString
      { value := none, errorMessage := "" } "abc" =
      .ok ⟨none, "Please enter a valid fraction (e.g., 5/3 or 1 2/3)"⟩ :=
  (claim_C9_thm fromRawInputString { value := none, errorMessage := "" }
    "abc").2 "Please enter a valid fraction (e.g., 5/3 or 1 2/3)" rfl

/-- Claim C10: controller initialization: a null bound value skips fromDict,
displays the label "0" and an empty error message; a non-null bound value is
rendered through fromDict and toString — illustrated concretely on the
record for -3 1/2. -/
theorem claim_C10_thm :
    initController none =
      { label := "0", errorMessage := "", fromDictInvoked := false } ∧
    (∀ d : FractionDict, initController (some d) =
      { label := (fromDict d).toStr, errorMessage := "",
        fromDictInvoked := true }) ∧
    initController (some ⟨some true, some 3, some 1, some 2⟩) =
      { label := "-3 1/2", errorMessage := "", fromDictInvoked := true } := by
  refine ⟨rfl, fun d => rfl, ?_⟩
  decide

end Oppia
